import Mathlib

/-!
Verification development for the CortexCrawler API-endpoint extraction
pipeline (`src/app/api/extract/api-endpoint/route.ts`).

The TypeScript source is shallowly embedded: JavaScript strings are Lean
`String`s (sequences of characters), JS objects whose keys matter are
association lists preserving insertion order, the network is an explicit
environment (a list of fetch outcomes consumed in order), and the
`performApiExtraction` while-loop becomes a structurally recursive
function over that environment.  Platform primitives that the route
merely calls (WHATWG `URL`, `JSON.parse`, `DOMParser`) are modelled
minimally or taken as parameters; every function of the route itself is
translated clause by clause.
-/

/-! ## JavaScript string primitives -/

/-- JS `x || d` for an optional string: `null`/`undefined` and the empty
string are falsy, so both fall back to the default. -/
def jsOrS (o : Option String) (d : String) : String :=
  match o with
  | none => d
  | some s => if s = "" then d else s

/-- JS `String.prototype.split(sep)` with a single-character separator,
on the character list of the string: always returns a non-empty list of
pieces, with empty pieces kept. -/
def splitChar (sep : Char) : List Char → List (List Char)
  | [] => [[]]
  | c :: cs =>
    let r := splitChar sep cs
    if c = sep then [] :: r
    else
      match r with
      | p :: ps => (c :: p) :: ps
      | [] => [[c]]

/-- Whitespace characters trimmed by JS `String.prototype.trim` (the
common ASCII subset: space, tab, LF, CR, VT, FF). -/
def isJsWs (c : Char) : Bool :=
  c = ' ' || c = '\t' || c = '\n' || c = '\r' || c = '\x0b' || c = '\x0c'

/-- JS `String.prototype.trim` on a character list. -/
def jsTrimList (cs : List Char) : List Char :=
  ((cs.dropWhile isJsWs).reverse.dropWhile isJsWs).reverse

/-- JS `String.prototype.trim`. -/
def jsTrimStr (s : String) : String :=
  String.mk (jsTrimList s.toList)

/-- JS `.replace(/"/g, '')`: delete every double-quote character. -/
def removeQuotes (s : String) : String :=
  String.mk (s.toList.filter (fun c => c ≠ '"'))

/-! ## Decimal rendering and `parseInt`

JS `Number.prototype.toString()` renders a natural number in decimal;
`parseInt` reads the longest leading digit prefix (NaN when there is
none).  Only nonnegative integers occur in the modelled code paths; NaN
is represented by `none`. -/

/-- Decimal digit list of a natural number (most significant first),
with explicit fuel so that the definition is structurally recursive and
kernel-evaluable.  Adequate whenever `n < fuel`. -/
def natDigitsAux : Nat → Nat → List Char
  | 0, _ => []
  | fuel + 1, n =>
    if n < 10 then [Nat.digitChar n]
    else natDigitsAux fuel (n / 10) ++ [Nat.digitChar (n % 10)]

/-- Decimal rendering of a natural number, i.e. JS `(n).toString()`. -/
def natToString (n : Nat) : String :=
  String.mk (natDigitsAux (n + 1) n)

/-- Value of a digit character list read in base 10. -/
def digitsVal (cs : List Char) : Nat :=
  cs.foldl (fun a c => a * 10 + (c.toNat - 48)) 0

/-- JS `parseInt` restricted to nonnegative decimal input: the longest
leading digit prefix, `none` (NaN) when the first character is not a
digit. -/
def jsParseInt (s : String) : Option Nat :=
  match s.toList with
  | [] => none
  | c :: _ => if c.isDigit then some (digitsVal (s.toList.takeWhile Char.isDigit)) else none

/-- NaN-propagating addition on modelled JS numbers. -/
def natAddNaN (a b : Option Nat) : Option Nat :=
  match a, b with
  | some x, some y => some (x + y)
  | _, _ => none

/-- Rendering of a modelled JS number (`NaN` prints as `"NaN"`). -/
def numToStr (o : Option Nat) : String :=
  match o with
  | some n => natToString n
  | none => "NaN"

/-! ## Query parameters and URLs -/

/-- `URLSearchParams.get`: value of the first parameter with the given
name, `null` when absent. -/
def getParam : List (String × String) → String → Option String
  | [], _ => none
  | (k, v) :: rest, name => if k = name then some v else getParam rest name

/-- Remove every parameter with the given name. -/
def dropParam : List (String × String) → String → List (String × String)
  | [], _ => []
  | (k, w) :: rest, name =>
    if k = name then dropParam rest name else (k, w) :: dropParam rest name

/-- `URLSearchParams.set`: replace the first parameter with the given
name in place, delete any later duplicates, append when absent. -/
def setParam : List (String × String) → String → String → List (String × String)
  | [], name, v => [(name, v)]
  | (k, w) :: rest, name, v =>
    if k = name then (name, v) :: dropParam rest name
    else (k, w) :: setParam rest name v

/-- A parsed URL: the part before the query string, plus the ordered
query parameters.  WHATWG URL serialisation details (percent-encoding,
normalisation) are outside the scope of the claims; two URLs are equal
when base and parameters are. -/
structure Url where
  base : String
  params : List (String × String)
deriving DecidableEq, Repr

theorem getParam_setParam_same (ps : List (String × String)) (k v : String) :
    getParam (setParam ps k v) k = some v := by
  induction ps with
  | nil => simp [setParam, getParam]
  | cons p rest ih =>
    by_cases h : p.1 = k
    · simp [setParam, getParam, h]
    · simp [setParam, getParam, h, ih]

theorem getParam_dropParam_ne (rest : List (String × String)) (k k' : String)
    (hne : k' ≠ k) :
    getParam (dropParam rest k) k' = getParam rest k' := by
  induction rest with
  | nil => simp [dropParam]
  | cons q qs ihq =>
    obtain ⟨a, b⟩ := q
    by_cases hq : a = k
    · subst hq
      simp only [dropParam, if_pos rfl, if_true]
      rw [ihq]
      simp only [getParam]
      rw [if_neg (fun h => hne h.symm)]
    · simp only [dropParam, hq, if_false, getParam]
      by_cases h' : a = k'
      · simp [h']
      · simp [h', ihq]

theorem getParam_setParam_other (ps : List (String × String)) (k k' v : String)
    (hne : k' ≠ k) : getParam (setParam ps k v) k' = getParam ps k' := by
  induction ps with
  | nil =>
    simp only [setParam, getParam]
    rw [if_neg (fun h : k = k' => hne h.symm)]
  | cons p rest ih =>
    obtain ⟨a, b⟩ := p
    by_cases h : a = k
    · subst h
      simp only [setParam, if_pos rfl, if_true]
      simp only [getParam]
      have hk : ¬ a = k' := fun h2 => hne h2.symm
      rw [if_neg hk, if_neg hk]
      exact getParam_dropParam_ne rest a k' hne
    · simp only [setParam, h, if_false, getParam]
      by_cases h' : a = k'
      · simp [h']
      · simp [h', ih]

/-! ## Correctness of decimal rendering vs `parseInt` -/

theorem digitsVal_append (ds : List Char) (c : Char) :
    digitsVal (ds ++ [c]) = digitsVal ds * 10 + (c.toNat - 48) := by
  simp [digitsVal, List.foldl_append]

theorem digitChar_isDigit (n : Nat) (h : n < 10) : (Nat.digitChar n).isDigit = true := by
  interval_cases n <;> decide

theorem digitChar_toNat (n : Nat) (h : n < 10) : (Nat.digitChar n).toNat = n + 48 := by
  interval_cases n <;> decide

theorem natDigitsAux_spec (fuel : Nat) :
    ∀ n, n < fuel →
      natDigitsAux fuel n ≠ [] ∧
      (∀ c ∈ natDigitsAux fuel n, c.isDigit = true) ∧
      digitsVal (natDigitsAux fuel n) = n := by
  induction fuel with
  | zero => intro n hn; omega
  | succ fuel ih =>
    intro n hn
    by_cases h10 : n < 10
    · refine ⟨by simp [natDigitsAux, h10], ?_, ?_⟩
      · intro c hc
        simp only [natDigitsAux, if_pos h10, List.mem_singleton] at hc
        subst hc
        exact digitChar_isDigit n h10
      · simp [natDigitsAux, h10, digitsVal, digitChar_toNat n h10]
    · have hdiv : n / 10 < fuel := by omega
      obtain ⟨hne, hdig, hval⟩ := ih (n / 10) hdiv
      refine ⟨by simp [natDigitsAux, h10], ?_, ?_⟩
      · intro c hc
        simp only [natDigitsAux, if_neg h10, List.mem_append, List.mem_singleton] at hc
        rcases hc with hc | hc
        · exact hdig c hc
        · subst hc
          exact digitChar_isDigit (n % 10) (by omega)
      · simp only [natDigitsAux, if_neg h10]
        rw [digitsVal_append, hval, digitChar_toNat (n % 10) (by omega)]
        omega

theorem natToString_ne_empty (n : Nat) : (natToString n).toList ≠ [] := by
  have := (natDigitsAux_spec (n + 1) n (by omega)).1
  simpa [natToString] using this

theorem jsParseInt_natToString (n : Nat) : jsParseInt (natToString n) = some n := by
  obtain ⟨hne, hdig, hval⟩ := natDigitsAux_spec (n + 1) n (by omega)
  have hlist : (natToString n).toList = natDigitsAux (n + 1) n := by
    simp [natToString]
  rw [jsParseInt, hlist]
  match hprod : natDigitsAux (n + 1) n with
  | [] => exact absurd hprod hne
  | c :: cs =>
    have hc : c.isDigit = true := hdig c (by rw [hprod]; exact List.mem_cons_self c cs)
    show (if c.isDigit = true then some (digitsVal (List.takeWhile Char.isDigit (c :: cs)))
          else none) = some n
    rw [if_pos hc]
    have htake : (c :: cs).takeWhile Char.isDigit = c :: cs := by
      rw [List.takeWhile_eq_self_iff]
      intro a ha
      exact hdig a (by rw [hprod]; exact ha)
    rw [htake, ← hprod, hval]

/-! ## Properties of `splitChar` -/

theorem splitChar_ne_nil (sep : Char) (cs : List Char) : splitChar sep cs ≠ [] := by
  induction cs with
  | nil => simp [splitChar]
  | cons c cs ih =>
    simp only [splitChar]
    by_cases h : c = sep
    · simp [h]
    · simp only [if_neg h]
      match hr : splitChar sep cs with
      | [] => simp
      | p :: ps => simp

theorem mem_splitChar_not_sep (sep : Char) (cs : List Char) :
    ∀ p ∈ splitChar sep cs, sep ∉ p := by
  induction cs with
  | nil =>
    intro p hp
    simp only [splitChar, List.mem_singleton] at hp
    subst hp
    simp
  | cons c cs ih =>
    intro p hp
    simp only [splitChar] at hp
    by_cases h : c = sep
    · rw [if_pos h, List.mem_cons] at hp
      rcases hp with hp | hp
      · subst hp; simp
      · exact ih p hp
    · rw [if_neg h] at hp
      match hr : splitChar sep cs with
      | [] => exact absurd hr (splitChar_ne_nil sep cs)
      | p0 :: ps =>
        rw [hr, List.mem_cons] at hp
        rcases hp with hp | hp
        · subst hp
          intro hmem
          rcases List.mem_cons.mp hmem with hmem | hmem
          · exact h hmem.symm
          · exact ih p0 (by rw [hr]; exact List.mem_cons_self p0 ps) hmem
        · exact ih p (by rw [hr]; exact List.mem_cons.mpr (Or.inr hp))

/-! ## JSON-like values

The normalized record shape produced by the decoders: JS strings,
numbers, booleans, null, arrays and insertion-ordered objects. -/

inductive JVal where
  | null
  | bool (b : Bool)
  | num (n : Int)
  | str (s : String)
  | arr (elems : List JVal)
  | obj (fields : List (String × JVal))

/-- JS object property read (`undefined` is `none`). -/
def jvalLookup : List (String × JVal) → String → Option JVal
  | [], _ => none
  | (k, v) :: rest, name => if k = name then some v else jvalLookup rest name

/-- JS object property assignment: overwrite in place when the key
exists, append otherwise (JS objects cannot hold duplicate keys). -/
def jsObjSet : List (String × JVal) → String → JVal → List (String × JVal)
  | [], k, v => [(k, v)]
  | (k', w) :: rest, k, v =>
    if k' = k then (k, v) :: rest else (k', w) :: jsObjSet rest k v

/-- JS truthiness of a value. -/
def jsTruthy : JVal → Bool
  | .null => false
  | .bool b => b
  | .num n => n ≠ 0
  | .str s => s ≠ ""
  | .arr _ => true
  | .obj _ => true

/-- JS typeof-is-object test (arrays and `null` included). -/
def isObjectTypeof : JVal → Bool
  | .null => true
  | .obj _ => true
  | .arr _ => true
  | _ => false

/-- JS `(n).toString()` for a modelled number. -/
def intToString : Int → String
  | Int.ofNat m => natToString m
  | Int.negSucc m => "-" ++ natToString (m + 1)

/-- JS string coercion of a scalar value, as used by `.toString()` in
the formatter and by `URLSearchParams.set` in the cursor branch.  The
modelled code paths only coerce scalars; the array case (recursive
comma-join in JS) is not exercised by any claim and is left at the
shallow placeholder below. -/
def jsToString : JVal → String
  | .null => "null"
  | .bool b => if b then "true" else "false"
  | .num n => intToString n
  | .str s => s
  | .arr _ => ""
  | .obj _ => "[object Object]"

mutual
/-- Structural equality of modelled JS values.  Models JS `Set` member
equality for the scalar `userId` values the formatter deduplicates
(JS `Set` compares objects by reference; the modelled `userId` values
are scalars, for which SameValueZero is structural equality). -/
def jvalBeq : JVal → JVal → Bool
  | .null, .null => true
  | .bool x, .bool y => x = y
  | .num x, .num y => x = y
  | .str x, .str y => x = y
  | .arr xs, .arr ys => jvalListBeq xs ys
  | .obj fs, .obj gs => jvalFieldsBeq fs gs
  | _, _ => false

/-- Elementwise equality for `jvalBeq`. -/
def jvalListBeq : List JVal → List JVal → Bool
  | [], [] => true
  | x :: xs, y :: ys => jvalBeq x y && jvalListBeq xs ys
  | _, _ => false

/-- Fieldwise equality for `jvalBeq`. -/
def jvalFieldsBeq : List (String × JVal) → List (String × JVal) → Bool
  | [], [] => true
  | (k, x) :: xs, (k', y) :: ys => (k = k' : Bool) && jvalBeq x y && jvalFieldsBeq xs ys
  | _, _ => false
end

/-- Equality on optional values (`undefined` is `none`). -/
def jvalOptBeq (a b : Option JVal) : Bool :=
  match a, b with
  | none, none => true
  | some x, some y => jvalBeq x y
  | _, _ => false

/-- Insertion-order deduplication, i.e. `[...new Set(xs)]`. -/
def dedupeBy (beq : α → α → Bool) : List α → List α
  | [] => []
  | x :: xs => x :: dedupeBy beq (xs.filter (fun y => !beq x y))
termination_by l => l.length
decreasing_by
  simp only [List.length_cons]
  exact Nat.lt_succ_of_le (List.length_filter_le _ _)

/-! ## XML decoding (`xmlToJson`, `parseXmlResponse`)

`DOMParser` is a browser primitive; the embedding starts from the
already-parsed element tree (tag name, attributes, child elements, and
the text content used when the element is a leaf) and translates
`xmlToJson` clause by clause. -/

mutual
/-- A parsed XML element: `tagName`, `attributes`, `children`
(element children only, as in `Element.children`), and the
`textContent` the source reads when the element has no child
elements. -/
inductive XmlElem where
  | mk (tag : String) (attrs : List (String × String)) (children : XmlChildren) (leafText : String)

/-- The element children of an XML element. -/
inductive XmlChildren where
  | nil
  | cons (head : XmlElem) (tail : XmlChildren)
end

/-- `Element.tagName`. -/
def XmlElem.tag : XmlElem → String
  | .mk t _ _ _ => t

mutual
/-- `xmlToJson` from the source: attributes are collected under the
reserved `@attributes` key, each child element is recursively converted
and stored under its tag name — a repeated tag wraps the existing entry
into an array and pushes — and a childless element stores its text
content under the reserved `#text` key. -/
def xmlToJson : XmlElem → JVal
  | .mk _tag attrs children leafText =>
    let base : List (String × JVal) :=
      if attrs.length > 0 then
        [("@attributes", JVal.obj (attrs.map (fun p => (p.1, JVal.str p.2))))]
      else []
    match children with
    | .nil => JVal.obj (base ++ [("#text", JVal.str leafText)])
    | .cons c rest => JVal.obj (xmlFoldChildren (.cons c rest) base)

/-- The child-iteration loop of `xmlToJson`: fold every child into the
accumulated field list, collapsing repeated sibling tags into an ordered
array under that tag name (the `if (result[childName])` branch). -/
def xmlFoldChildren : XmlChildren → List (String × JVal) → List (String × JVal)
  | .nil, acc => acc
  | .cons c rest, acc =>
    let childName := c.tag
    let childJson := xmlToJson c
    let acc' :=
      match jvalLookup acc childName with
      | some v =>
        if jsTruthy v then
          match v with
          | JVal.arr xs => jsObjSet acc childName (JVal.arr (xs ++ [childJson]))
          | w => jsObjSet acc childName (JVal.arr [w, childJson])
        else jsObjSet acc childName childJson
      | none => jsObjSet acc childName childJson
    xmlFoldChildren rest acc'
end

/-! ## Field mapper (`extractDataFromJson`) -/

/-- `dataMapping` from the request. -/
structure DataMapping where
  rootPath : Option String
  fields : Option (List (String × String))

/-- The root-path walk of `extractDataFromJson`: follow each dotted
segment through object fields; `none` when some segment is absent (the
caller then returns the original data unchanged). -/
def walkPath : List String → JVal → Option JVal
  | [], cur => some cur
  | part :: rest, cur =>
    match cur with
    | JVal.obj fields =>
      match jvalLookup fields part with
      | some nxt => walkPath rest nxt
      | none => none
    | _ => none

/-- The per-element field projection of `extractDataFromJson`: copy each
declared `newKey ← oldKey` pair present on the element; when no declared
key matched, keep the original element. -/
def mapFields (fieldsSpec : List (String × String)) (item : JVal) : JVal :=
  let mapped : List (String × JVal) :=
    fieldsSpec.foldl
      (fun acc kv =>
        match item with
        | JVal.obj itemFields =>
          match jvalLookup itemFields kv.2 with
          | some v => jsObjSet acc kv.1 v
          | none => acc
        | _ => acc)
      []
  if mapped.length > 0 then JVal.obj mapped else item

/-- `extractDataFromJson` from the source: navigate to
`dataMapping.rootPath` (dot-separated), returning the original data when
the mapping is absent or the path breaks; then apply the field mapping
when declared and the resolved root is an array. -/
def extractDataFromJson (data : JVal) (dm : Option DataMapping) : JVal :=
  match dm with
  | none => data
  | some m =>
    match m.rootPath with
    | none => data
    | some root =>
      let pathParts := (splitChar '.' root.toList).map String.mk
      match walkPath pathParts data with
      | none => data
      | some current =>
        match m.fields, current with
        | some fs, JVal.arr items => JVal.arr (items.map (mapFields fs))
        | _, _ => current

/-- `parseXmlResponse`: convert the parsed document element and apply
the field mapper (the `DOMParser` call itself is the platform parse that
produced the `XmlElem`). -/
def parseXmlResponse (docElement : XmlElem) (dm : Option DataMapping) : JVal :=
  extractDataFromJson (xmlToJson docElement) dm

/-! ## CSV decoding (`parseCsvResponse`) -/

/-- Cell cleanup: `.trim().replace(/"/g, '')`. -/
def cleanCell (cs : List Char) : String :=
  removeQuotes (String.mk (jsTrimList cs))

/-- The row-building `headers.forEach` of `parseCsvResponse`:
`row[header] = values[index] || ''`. -/
def buildRow (headers : List String) (values : List String) : List (String × JVal) :=
  headers.enum.foldl
    (fun row p => jsObjSet row p.2 (JVal.str (values.getD p.1 "")))
    []

/-- The rows of `parseCsvResponse`: trim the body, split into lines,
read the first line as the comma-delimited quote-stripped header row,
and turn each further line into a header-to-cell mapping. -/
def csvRows (csvText : String) : List (List (String × JVal)) :=
  match splitChar '\n' (jsTrimList csvText.toList) with
  | [] => []
  | headerLine :: rest =>
    let headers := (splitChar ',' headerLine).map cleanCell
    rest.map (fun line =>
      let values := (splitChar ',' line).map cleanCell
      buildRow headers values)

/-- `parseCsvResponse` from the source (the unused `dataMapping`
parameter is dropped): an array of row objects. -/
def parseCsvResponse (csvText : String) : List JVal :=
  (csvRows csvText).map JVal.obj

/-! ## `analyzeDataStructure` -/

/-- First keys preview used by `analyzeDataStructure`. -/
def keysPreview (keys : List String) : String :=
  String.intercalate ", " (keys.take 3) ++ (if keys.length > 3 then "..." else "")

/-- JS `typeof` tag of a scalar sample (the template literal of the source
`Primitive values (${typeof sample})`). -/
def typeofTag : JVal → String
  | .null => "object"
  | .bool _ => "boolean"
  | .num _ => "number"
  | .str _ => "string"
  | .arr _ => "object"
  | .obj _ => "object"

/-- `analyzeDataStructure` from the source. -/
def analyzeDataStructure (data : List JVal) : String :=
  match data with
  | [] => "Empty dataset"
  | sample :: _ =>
    match sample with
    | JVal.arr _ => "Array of arrays"
    | JVal.obj fields =>
      "Object with " ++ natToString fields.length ++ " fields: " ++
        keysPreview (fields.map Prod.fst)
    | s => "Primitive values (" ++ typeofTag s ++ ")"

/-! ## Rendering (`formatExtractedData`) -/

/-- Declared response format of the request. -/
inductive RespFormat where
  | json
  | xml
  | csv
  | text
deriving DecidableEq, Repr

/-- `format.toUpperCase()` for the four declared formats. -/
def formatUpper : RespFormat → String
  | .json => "JSON"
  | .xml => "XML"
  | .csv => "CSV"
  | .text => "TEXT"

/-- The indentation produced by `JSON.stringify(·, null, 2)` at a given
nesting depth. -/
def indentStr (depth : Nat) : String :=
  String.mk (List.replicate (2 * depth) ' ')

/-- JSON string escaping (the characters relevant here: backslash,
double quote and common control characters). -/
def jsonEscape (s : String) : String :=
  String.join (s.toList.map (fun c =>
    if c = '"' then "\\\""
    else if c = '\\' then "\\\\"
    else if c = '\n' then "\\n"
    else if c = '\r' then "\\r"
    else if c = '\t' then "\\t"
    else String.singleton c))

mutual
/-- `JSON.stringify(v, null, 2)`: pretty-printed JSON with two-space
indentation. -/
def jsonStringify (depth : Nat) : JVal → String
  | .null => "null"
  | .bool b => if b then "true" else "false"
  | .num n => intToString n
  | .str s => "\"" ++ jsonEscape s ++ "\""
  | .arr [] => "[]"
  | .arr (x :: xs) =>
    "[\n" ++ jsonStringifyItems (depth + 1) (x :: xs) ++ "\n" ++ indentStr depth ++ "]"
  | .obj [] => "\x7b\x7d"
  | .obj (f :: fs) =>
    "\x7b\n" ++ jsonStringifyFields (depth + 1) (f :: fs) ++ "\n" ++ indentStr depth ++ "\x7d"

/-- Comma-and-newline separated array items for `jsonStringify`. -/
def jsonStringifyItems (depth : Nat) : List JVal → String
  | [] => ""
  | [x] => indentStr depth ++ jsonStringify depth x
  | x :: y :: xs =>
    indentStr depth ++ jsonStringify depth x ++ ",\n" ++ jsonStringifyItems depth (y :: xs)

/-- Comma-and-newline separated object entries for `jsonStringify`. -/
def jsonStringifyFields (depth : Nat) : List (String × JVal) → String
  | [] => ""
  | [(k, v)] => indentStr depth ++ "\"" ++ jsonEscape k ++ "\": " ++ jsonStringify depth v
  | (k, v) :: g :: gs =>
    indentStr depth ++ "\"" ++ jsonEscape k ++ "\": " ++ jsonStringify depth v ++ ",\n" ++
      jsonStringifyFields depth (g :: gs)
end

/-- `const maxRecordsToShow = data.length > 20 ? 10 : Math.min(data.length, 5)` —
the display cap computed by `formatExtractedData`. -/
def maxRecordsToShow (n : Nat) : Nat :=
  if n > 20 then 10 else min n 5

/-- `const sampleData = data.slice(0, maxRecordsToShow)`. -/
def sampleRecords (data : List JVal) : List JVal :=
  data.take (maxRecordsToShow data.length)

/-- JS property read on a value (`undefined` for non-objects). -/
def jvalGetProp (v : JVal) (name : String) : Option JVal :=
  match v with
  | JVal.obj fields => jvalLookup fields name
  | _ => none

/-- `Object.keys`: field names of an object, index strings of an array
(empty for scalars; the modelled datasets never reach this call with
`null`, which would throw in JS). -/
def jsObjKeys : JVal → List String
  | JVal.obj fields => fields.map Prod.fst
  | JVal.arr xs => (List.range xs.length).map natToString
  | _ => []

/-- The numbered `Record i:` blocks of the non-JSON rendering branch. -/
def renderRecordBlocks (i : Nat) : List JVal → String
  | [] => ""
  | r :: rest =>
    "\nRecord " ++ natToString i ++ ":\n" ++
      (if isObjectTypeof r then jsonStringify 0 r else jsToString r) ++
      renderRecordBlocks (i + 1) rest

/-- The `DATASET SUMMARY` block appended for large JSON datasets. -/
def datasetSummary (data : List JVal) : String :=
  "\n\nDATASET SUMMARY:" ++ "\nTotal Records: " ++ natToString data.length ++
    (match data.head? with
     | some first =>
       if isObjectTypeof first then
         let fields := jsObjKeys first
         "\nFields per Record: " ++ natToString fields.length ++
         "\nSample Fields: " ++ String.intercalate ", " (fields.take 5) ++
           (if fields.length > 5 then "..." else "") ++
         (match jvalGetProp first "userId" with
          | some uid =>
            if jsTruthy uid then
              "\nUnique Users: " ++
                natToString
                  (dedupeBy jvalOptBeq (data.map (fun item => jvalGetProp item "userId"))).length
            else ""
          | none => "")
       else ""
     | none => "")

/-- `formatExtractedData` from the source: header block, capped sample
rendering (JSON pretty-printing or numbered record blocks), truncation
notice with dataset summary for large JSON datasets, and a final
25,000-character clamp. -/
def formatExtractedData (data : List JVal) (format : RespFormat) : String :=
  if data.length = 0 then "No data extracted from API endpoint."
  else
    let n := data.length
    let shown := maxRecordsToShow n
    let sampleData := sampleRecords data
    let header :=
      "API ENDPOINT EXTRACTION RESULTS\n" ++
      "Records Extracted: " ++ natToString n ++ "\n" ++
      "Response Format: " ++ formatUpper format ++ "\n\n"
    let body :=
      match format with
      | .json =>
        let s1 :=
          "EXTRACTED DATA (JSON) - Showing " ++ natToString shown ++ " of " ++
            natToString n ++ " records:\n" ++
          jsonStringify 0 (JVal.arr sampleData)
        if n > shown then
          s1 ++ "\n\n... and " ++ natToString (n - shown) ++
            " more records (truncated for display)" ++ datasetSummary data
        else s1
      | _ =>
        let s1 :=
          "EXTRACTED DATA - Showing " ++ natToString shown ++ " of " ++
            natToString n ++ " records:\n" ++
          renderRecordBlocks 1 sampleData
        if n > shown then
          s1 ++ "\n\n... and " ++ natToString (n - shown) ++
            " more records (truncated for display)"
        else s1
    let full := header ++ body
    if full.length > 25000 then
      String.mk (full.toList.take 25000) ++
        "\n\n[Content truncated due to size - full data available for export]"
    else full

/-! ## Pagination controller (`getNextPageUrl`) -/

/-- Pagination strategy (`pagination.type`). -/
inductive PagType where
  | offset
  | cursor
  | page
deriving DecidableEq, Repr

/-- `pagination` from the request.  `maxPages` is a nonnegative integer
option (the TS field is an optional `number`; negative limits do not
occur on the modelled paths). -/
structure Pagination where
  enabled : Bool
  ptype : Option PagType := none
  pageParam : Option String := none
  limitParam : Option String := none
  maxPages : Option Nat := none
deriving DecidableEq, Repr

/-- `pagination.maxPages || 10`: JS `||` also replaces an explicit `0`
(falsy) by the default. -/
def effectiveMaxPages (p : Pagination) : Nat :=
  match p.maxPages with
  | none => 10
  | some 0 => 10
  | some (n + 1) => n + 1

/-- `getNextPageUrl` from the source.  The `Link` response header is
pre-resolved by the environment into `linkNext` (the URL of a
`rel="next"` entry, when present): the browser regex extraction is a
platform detail of header syntax, not of this pipeline. -/
def getNextPageUrl (linkNext : Option Url) (data : JVal) (pg : Pagination)
    (currentUrl : Url) (_currentPage : Nat) : Option Url :=
  if !pg.enabled then none
  else
    match pg.ptype with
    | some PagType.offset =>
      let pName := jsOrS pg.pageParam "offset"
      let lName := jsOrS pg.limitParam "limit"
      let currentOffset := jsParseInt (jsOrS (getParam currentUrl.params pName) "0")
      let limit := jsParseInt (jsOrS (getParam currentUrl.params lName) "10")
      some { currentUrl with
             params := setParam currentUrl.params pName
               (numToStr (natAddNaN currentOffset limit)) }
    | some PagType.page =>
      let pName := jsOrS pg.pageParam "page"
      let currentPageNum := jsParseInt (jsOrS (getParam currentUrl.params pName) "1")
      some { currentUrl with
             params := setParam currentUrl.params pName
               (numToStr (natAddNaN currentPageNum (some 1))) }
    | some PagType.cursor =>
      match linkNext with
      | some u => some u
      | none =>
        match data with
        | JVal.obj fields =>
          match jvalLookup fields "next_cursor" with
          | some v =>
            if jsTruthy v then
              some { currentUrl with
                     params := setParam currentUrl.params
                       (jsOrS pg.pageParam "cursor") (jsToString v) }
            else none
          | none => none
        | _ => none
    | none => none

/-! ## The extraction loop (`performApiExtraction`)

The network is an explicit environment: a list of fetch outcomes
consumed one per `fetch` call.  A resolved fetch carries the HTTP status
and body (and the pre-resolved `rel="next"` link); a rejected fetch
(network error, DNS failure, `AbortSignal` timeout) is `netError`.
`Option` is `none` when the environment is too short to decide the run. -/

/-- One outcome of a `fetch` call. -/
inductive FetchOutcome where
  | response (status : Nat) (body : String) (linkNext : Option Url)
  | netError
deriving Repr

/-- The mutable state of the fetch loop of `performApiExtraction`.  The
first eight fields are the local variables of the source.  The remaining fields are
ghost instrumentation that records observable effects for specification
purposes: the number of `fetch` calls issued, the statuses of the
responses received, the 2000 ms waits requested on 429, the records
contributed by each successfully fetched page, and the value of
`pagesProcessed` at the `console.warn` of a recovered page failure. -/
structure LoopState where
  retryCount : Nat
  rateLimitHit : Bool
  allData : List JVal
  pagesProcessed : Nat
  finalStatusCode : Nat
  totalResponseSize : Nat
  currentUrl : Url
  hasMorePages : Bool
  fetchCount : Nat
  received : List Nat
  delays : List Nat
  pageRecords : List (List JVal)
  warnedAfter : Option Nat

/-- The loop state right before the first iteration. -/
def initState (url : Url) : LoopState :=
  { retryCount := 0
    rateLimitHit := false
    allData := []
    pagesProcessed := 0
    finalStatusCode := 200
    totalResponseSize := 0
    currentUrl := url
    hasMorePages := true
    fetchCount := 0
    received := []
    delays := []
    pageRecords := []
    warnedAfter := none }

/-- The extraction configuration visible to the loop: the pagination
settings, the request headers passed to every `fetch` (they do not
influence the modelled control flow, since the environment already fixes
the responses), and the body decoder
`parseApiResponse(·, responseFormat, dataMapping)` as a function of the
response text. -/
structure Config where
  pagination : Pagination
  requestHeaders : List (String × String)
  parse : String → JVal

/-- `allData.push(...parsed)` vs `allData.push(parsed)`: spread arrays,
box everything else. -/
def pushData : JVal → List JVal
  | JVal.arr xs => xs
  | v => [v]

/-- The `while (hasMorePages && pagesProcessed < maxPages)` loop of
`performApiExtraction`, one environment entry consumed per `fetch`:

* a resolved non-2xx response with status 429 marks `rateLimitHit`,
  requests the fixed 2000 ms delay, increments `retryCount` and retries
  the same request while `retryCount < 3`;
* any other failure (non-2xx, exhausted 429, rejected fetch) is a page
  error: rethrown when `pagesProcessed === 0` (the whole operation
  fails, `Except.error` carrying the state at the throw), otherwise
  recovered by a `console.warn` and `hasMorePages = false`;
* a 2xx response is decoded, its records appended, and pagination
  computes the next URL (stopping when disabled, at the page cap, or
  when the next URL is absent or equals the current one). -/
def extractLoop (cfg : Config) : LoopState → List FetchOutcome → Option (Except LoopState LoopState)
  | st, [] =>
    if st.hasMorePages ∧ st.pagesProcessed < effectiveMaxPages cfg.pagination then none
    else some (Except.ok st)
  | st, outcome :: rest =>
    if st.hasMorePages ∧ st.pagesProcessed < effectiveMaxPages cfg.pagination then
      match outcome with
      | FetchOutcome.netError =>
        let st1 := { st with fetchCount := st.fetchCount + 1 }
        if st1.pagesProcessed = 0 then some (Except.error st1)
        else
          extractLoop cfg
            { st1 with hasMorePages := false, warnedAfter := some st1.pagesProcessed } rest
      | FetchOutcome.response status body linkNext =>
        let st1 := { st with
                     fetchCount := st.fetchCount + 1
                     finalStatusCode := status
                     received := st.received ++ [status] }
        if 200 ≤ status ∧ status < 300 then
          let parsed := cfg.parse body
          let newRecords := pushData parsed
          let st2 := { st1 with
                       totalResponseSize := st1.totalResponseSize + body.length
                       pagesProcessed := st1.pagesProcessed + 1
                       allData := st1.allData ++ newRecords
                       pageRecords := st1.pageRecords ++ [newRecords] }
          let st3 :=
            if cfg.pagination.enabled ∧ st2.pagesProcessed < effectiveMaxPages cfg.pagination then
              match getNextPageUrl linkNext parsed cfg.pagination st2.currentUrl st2.pagesProcessed with
              | some nextUrl =>
                if nextUrl ≠ st2.currentUrl then { st2 with currentUrl := nextUrl }
                else { st2 with hasMorePages := false }
              | none => { st2 with hasMorePages := false }
            else { st2 with hasMorePages := false }
          extractLoop cfg st3 rest
        else
          if status = 429 then
            let st2 := { st1 with
                         rateLimitHit := true
                         delays := st1.delays ++ [2000]
                         retryCount := st1.retryCount + 1 }
            if st2.retryCount < 3 then extractLoop cfg st2 rest
            else
              if st2.pagesProcessed = 0 then some (Except.error st2)
              else
                extractLoop cfg
                  { st2 with hasMorePages := false, warnedAfter := some st2.pagesProcessed } rest
          else
            if st1.pagesProcessed = 0 then some (Except.error st1)
            else
              extractLoop cfg
                { st1 with hasMorePages := false, warnedAfter := some st1.pagesProcessed } rest
    else some (Except.ok st)

/-- `performApiExtraction`, started from a fresh loop state on the
requested URL. -/
def performApiExtraction (cfg : Config) (url : Url) (env : List FetchOutcome) :
    Option (Except LoopState LoopState) :=
  extractLoop cfg (initState url) env

/-- The authentication variant of the request. -/
inductive AuthType where
  | noAuth
  | apiKey
  | bearer
  | basic
  | oauth
deriving DecidableEq, Repr

/-- The optional `credentials` object of the request. -/
structure Credentials where
  apiKey : Option String := none
  apiKeyHeader : Option String := none
  token : Option String := none
  username : Option String := none
  password : Option String := none
  oauthToken : Option String := none
deriving DecidableEq, Repr

/-- `authentication` from the request (`noAuth` is the tag named none). -/
structure Authentication where
  typ : AuthType
  credentials : Option Credentials := none
deriving DecidableEq, Repr

/-- Truthiness of `credentials?.field`: present and non-empty. -/
def jsTruthyStrOpt : Option String → Bool
  | none => false
  | some s => s ≠ ""

/-- JS header-object assignment (same insertion-order semantics as
`jsObjSet`, with string values). -/
def setHeader : List (String × String) → String → String → List (String × String)
  | [], k, v => [(k, v)]
  | (k', w) :: rest, k, v =>
    if k' = k then (k, v) :: rest else (k', w) :: setHeader rest k v

/-- The base64 alphabet. -/
def base64Chars : List Char :=
  "ABCDEFGHIJKLMNOPQRSTUVWXYZabcdefghijklmnopqrstuvwxyz0123456789+/".toList

/-- One base64 digit. -/
def b64digit (i : Nat) : Char :=
  base64Chars.getD i '?'

/-- `btoa` on latin-1 code units, three bytes a group. -/
def btoaGroups : List Nat → List Char
  | [] => []
  | [a] =>
    let n := a * 65536
    [b64digit (n / 262144 % 64), b64digit (n / 4096 % 64), '=', '=']
  | [a, b] =>
    let n := a * 65536 + b * 256
    [b64digit (n / 262144 % 64), b64digit (n / 4096 % 64), b64digit (n / 64 % 64), '=']
  | a :: b :: c :: rest =>
    let n := a * 65536 + b * 256 + c
    [b64digit (n / 262144 % 64), b64digit (n / 4096 % 64), b64digit (n / 64 % 64),
      b64digit (n % 64)] ++ btoaGroups rest

/-- `btoa(s)`: base64 of the character codes of `s` (the credentials on
the modelled path are latin-1). -/
def btoa (s : String) : String :=
  String.mk (btoaGroups (s.toList.map Char.toNat))

/-- The authentication-header block of `performApiExtraction` (source
lines 185–195): each arm fires only when its tag matches and the
required credential fields are truthy; otherwise the headers pass
through unchanged. -/
def buildAuthHeaders (auth : Authentication) (headers : List (String × String)) :
    List (String × String) :=
  let cred := fun f => auth.credentials.bind f
  if auth.typ = AuthType.apiKey ∧ jsTruthyStrOpt (cred Credentials.apiKey) then
    setHeader headers (jsOrS (cred Credentials.apiKeyHeader) "X-API-Key")
      ((cred Credentials.apiKey).getD "")
  else if auth.typ = AuthType.bearer ∧ jsTruthyStrOpt (cred Credentials.token) then
    setHeader headers "Authorization" ("Bearer " ++ (cred Credentials.token).getD "")
  else if auth.typ = AuthType.basic ∧ jsTruthyStrOpt (cred Credentials.username) ∧
      jsTruthyStrOpt (cred Credentials.password) then
    setHeader headers "Authorization"
      ("Basic " ++ btoa ((cred Credentials.username).getD "" ++ ":" ++
        (cred Credentials.password).getD ""))
  else if auth.typ = AuthType.oauth ∧ jsTruthyStrOpt (cred Credentials.oauthToken) then
    setHeader headers "Authorization" ("Bearer " ++ (cred Credentials.oauthToken).getD "")
  else headers

/-- Whether the credential fields required by the selected
authentication mode are missing (absent or empty, i.e. falsy). -/
def missingRequired (auth : Authentication) : Bool :=
  let cred := fun f => auth.credentials.bind f
  match auth.typ with
  | AuthType.noAuth => false
  | AuthType.apiKey => !jsTruthyStrOpt (cred Credentials.apiKey)
  | AuthType.bearer => !jsTruthyStrOpt (cred Credentials.token)
  | AuthType.basic =>
    !(jsTruthyStrOpt (cred Credentials.username) && jsTruthyStrOpt (cred Credentials.password))
  | AuthType.oauth => !jsTruthyStrOpt (cred Credentials.oauthToken)

/-- The `Content-Type` default for POST/PUT/PATCH requests with a body
and no caller-supplied content type. -/
def addContentType (method : String) (body : Option String)
    (headers : List (String × String)) : List (String × String) :=
  if (method = "POST" ∨ method = "PUT" ∨ method = "PATCH") ∧
      jsTruthyStrOpt body = true ∧
      (!jsTruthyStrOpt (getParam headers "Content-Type")) = true then
    setHeader headers "Content-Type" "application/json"
  else headers

/-! ## URL validation (`new URL`, scheme check) -/

/-- Scan of a URL scheme after its initial letter: alphanumerics and
`+`/`-`/`.` up to the first colon; `URL.protocol` is the lowercased
scheme with the trailing colon. -/
def schemeScan : List Char → List Char → Option String
  | [], _ => none
  | c :: rest, acc =>
    if c = ':' then some (String.mk (acc.reverse.map Char.toLower) ++ ":")
    else if c.isAlphanum ∨ c = '+' ∨ c = '-' ∨ c = '.' then schemeScan rest (c :: acc)
    else none

/-- The protocol of a URL string, `none` when the string has no valid
scheme and `new URL` would throw. -/
def urlProtocol (s : String) : Option String :=
  match s.toList with
  | [] => none
  | c :: rest => if c.isAlpha then schemeScan rest [c] else none

/-- Split a character list at the first occurrence of a separator. -/
def breakAtFirst (sep : Char) : List Char → List Char × Option (List Char)
  | [] => ([], none)
  | c :: rest =>
    if c = sep then ([], some rest)
    else
      let p := breakAtFirst sep rest
      (c :: p.1, p.2)

/-- Query-string parse of `URLSearchParams`: `&`-separated pairs, empty
segments skipped, value empty when `=` is absent (percent-decoding is
not exercised by the modelled inputs). -/
def parseQuery (q : List Char) : List (String × String) :=
  (splitChar '&' q).filterMap (fun piece =>
    match piece with
    | [] => none
    | _ =>
      let p := breakAtFirst '=' piece
      some (String.mk p.1, String.mk ((p.2).getD [])))

/-- `new URL(s)`, reduced to what the route observes: validity (scheme
presence), the part before the query string, and the query parameters. -/
def urlParse (s : String) : Option Url :=
  match urlProtocol s with
  | none => none
  | some _ =>
    let p := breakAtFirst '?' s.toList
    some { base := String.mk p.1
           params := match p.2 with
                     | none => []
                     | some q => parseQuery q }

/-! ## Body decoding dispatch and the POST handler -/

/-- `parseApiResponse` from the source.  `JSON.parse` and
`DOMParser.parseFromString` are platform parsers supplied as parameters
(`none` models a parse failure, caught by the try block of the source and
degraded to the raw text). -/
def parseApiResponse (jsonParse : String → Option JVal) (xmlParse : String → Option XmlElem)
    (format : RespFormat) (dm : Option DataMapping) (responseText : String) : JVal :=
  match format with
  | RespFormat.json =>
    match jsonParse responseText with
    | some v => extractDataFromJson v dm
    | none => JVal.str responseText
  | RespFormat.xml =>
    match xmlParse responseText with
    | some docElement => parseXmlResponse docElement dm
    | none => JVal.str responseText
  | RespFormat.csv => JVal.arr (parseCsvResponse responseText)
  | RespFormat.text => JVal.str responseText

/-- The success payload of the route (`ApiEndpointResponse`), restricted
to the deterministic fields: wall-clock timings (`Date.now()`) and the
raw response-header echo are environment noise outside the embedding. -/
structure ApiEndpointResponse where
  extractedData : String
  statusCode : Nat
  responseSize : Nat
  pagesProcessed : Nat
  rateLimitHit : Bool
  retryCount : Nat
  hasAuthentication : Bool
  dataStructure : String
  recordCount : Nat
deriving Repr

/-- Construction of the success payload from the final loop state
(source lines 277–303). -/
def mkResponse (format : RespFormat) (authType : AuthType) (st : LoopState) :
    ApiEndpointResponse :=
  { extractedData := formatExtractedData st.allData format
    statusCode := st.finalStatusCode
    responseSize := st.totalResponseSize
    pagesProcessed := st.pagesProcessed
    rateLimitHit := st.rateLimitHit
    retryCount := st.retryCount
    hasAuthentication := authType ≠ AuthType.noAuth
    dataStructure := analyzeDataStructure st.allData
    recordCount := st.allData.length }

/-- The request body accepted by the route, with the destructuring
defaults of the source. -/
structure ApiRequest where
  url : String
  method : String := "GET"
  headers : List (String × String) := []
  body : Option String := none
  authentication : Authentication := { typ := AuthType.noAuth }
  responseFormat : RespFormat := RespFormat.json
  dataMapping : Option DataMapping := none
  pagination : Pagination := { enabled := false }
  timeout : Nat := 30000

/-- Observable outcome of the `POST` handler: a 400 configuration error
before any network call, a 200 success payload, the 500 catch-all after
`performApiExtraction` threw, or `pending` when the abstract environment
is too short to decide the run. -/
inductive PostOutcome where
  | configError (message : String) (httpStatus : Nat)
  | success (result : ApiEndpointResponse)
  | extractionError (httpStatus : Nat)
  | pending

/-- The `POST` handler: URL presence, URL parse and scheme checks (the
only validations before the network), then the extraction pipeline. -/
def handlePost (jsonParse : String → Option JVal) (xmlParse : String → Option XmlElem)
    (req : ApiRequest) (env : List FetchOutcome) : PostOutcome :=
  if jsTrimStr req.url = "" then PostOutcome.configError "API endpoint URL is required" 400
  else
    match urlParse req.url with
    | none => PostOutcome.configError "Invalid API endpoint URL format" 400
    | some validUrl =>
      match urlProtocol req.url with
      | none => PostOutcome.configError "Invalid API endpoint URL format" 400
      | some proto =>
        if proto ≠ "http:" ∧ proto ≠ "https:" then
          PostOutcome.configError "Only HTTP and HTTPS URLs are allowed" 400
        else
          let requestHeaders :=
            addContentType req.method req.body (buildAuthHeaders req.authentication req.headers)
          let cfg : Config :=
            { pagination := req.pagination
              requestHeaders := requestHeaders
              parse := parseApiResponse jsonParse xmlParse req.responseFormat req.dataMapping }
          match performApiExtraction cfg validUrl env with
          | none => PostOutcome.pending
          | some (Except.error _) => PostOutcome.extractionError 500
          | some (Except.ok st) =>
            PostOutcome.success (mkResponse req.responseFormat req.authentication.typ st)

/-! ## Substring observations on rendered text -/

/-- Does the first list start with the second? -/
def startsWithL : List Char → List Char → Bool
  | _, [] => true
  | [], _ :: _ => false
  | h :: hs, n :: ns => h = n && startsWithL hs ns

/-- Does the second list occur contiguously inside the first? -/
def containsSubL (needle : List Char) : List Char → Bool
  | [] => startsWithL [] needle
  | c :: rest => startsWithL (c :: rest) needle || containsSubL needle rest

/-- `hay.includes(needle)`: substring occurrence on rendered output. -/
def containsSub (hay needle : String) : Bool :=
  containsSubL needle.toList hay.toList

/-- The loop invariant tying the source variables to the ghost
instrumentation: records-per-page bookkeeping matches `allData` and
`pagesProcessed`, the page count respects the effective cap, the status
code is the one of the last received response (200 before any), and a
recorded `console.warn` pins `pagesProcessed` and stops the loop. -/
def StateInv (cfg : Config) (st : LoopState) : Prop :=
  st.pageRecords.length = st.pagesProcessed ∧
  st.allData = st.pageRecords.flatten ∧
  st.pagesProcessed ≤ effectiveMaxPages cfg.pagination ∧
  st.finalStatusCode = st.received.getLast?.getD 200 ∧
  (∀ m, st.warnedAfter = some m →
    st.pagesProcessed = m ∧ st.hasMorePages = false ∧ 1 ≤ m)

/-- What holds of a decided run: a thrown error leaves page count zero
and no partial data; a success satisfies the invariant. -/
def ResultPost (cfg : Config) : Except LoopState LoopState → Prop
  | Except.error fs => StateInv cfg fs ∧ fs.pagesProcessed = 0 ∧ fs.allData = []
  | Except.ok fs => StateInv cfg fs

theorem allData_nil_of_inv {cfg : Config} {st : LoopState} (h : StateInv cfg st)
    (h0 : st.pagesProcessed = 0) : st.allData = [] := by
  obtain ⟨hlen, hjoin, _⟩ := h
  have hrec : st.pageRecords = [] := List.length_eq_zero.mp (by omega)
  rw [hjoin, hrec]
  rfl

theorem extractLoop_post (cfg : Config) :
    ∀ (env : List FetchOutcome) (st : LoopState), StateInv cfg st →
      ∀ res, extractLoop cfg st env = some res → ResultPost cfg res := by
  intro env
  induction env with
  | nil =>
    intro st hInv res hres
    simp only [extractLoop] at hres
    split at hres
    · exact absurd hres (by simp)
    · rw [Option.some.injEq] at hres
      subst hres
      exact hInv
  | cons outcome rest ih =>
    intro st hInv res hres
    obtain ⟨hlen, hjoin, hle, hstat, hwarn⟩ := hInv
    cases outcome with
    | netError =>
      simp only [extractLoop] at hres
      split at hres
      case isFalse hcond =>
        rw [Option.some.injEq] at hres
        subst hres
        exact ⟨hlen, hjoin, hle, hstat, hwarn⟩
      case isTrue hcond =>
        split at hres
        case isTrue h0 =>
          rw [Option.some.injEq] at hres
          subst hres
          refine ⟨⟨hlen, hjoin, hle, hstat, hwarn⟩, h0, ?_⟩
          exact allData_nil_of_inv ⟨hlen, hjoin, hle, hstat, hwarn⟩ h0
        case isFalse h0 =>
          refine ih _ ?_ res hres
          refine ⟨hlen, hjoin, hle, hstat, ?_⟩
          intro m hm
          simp only [Option.some.injEq] at hm
          subst hm
          refine ⟨rfl, rfl, ?_⟩
          omega
    | response status body linkNext =>
      simp only [extractLoop] at hres
      split at hres
      case isFalse hcond =>
        rw [Option.some.injEq] at hres
        subst hres
        exact ⟨hlen, hjoin, hle, hstat, hwarn⟩
      case isTrue hcond =>
        have hwarn0 : st.warnedAfter = none := by
          cases hw : st.warnedAfter with
          | none => rfl
          | some m =>
            have h2 := (hwarn m hw).2.1
            rw [h2] at hcond
            exact absurd hcond (by simp)
        by_cases hok : 200 ≤ status ∧ status < 300
        · rw [if_pos hok] at hres
          have key : ∀ (u : Url) (hmp : Bool), StateInv cfg
              { retryCount := st.retryCount, rateLimitHit := st.rateLimitHit,
                allData := st.allData ++ pushData (cfg.parse body),
                pagesProcessed := st.pagesProcessed + 1,
                finalStatusCode := status,
                totalResponseSize := st.totalResponseSize + body.length,
                currentUrl := u, hasMorePages := hmp, fetchCount := st.fetchCount + 1,
                received := st.received ++ [status], delays := st.delays,
                pageRecords := st.pageRecords ++ [pushData (cfg.parse body)],
                warnedAfter := st.warnedAfter } := by
            intro u hmp
            refine ⟨?_, ?_, ?_, ?_, ?_⟩
            · simp [hlen]
            · simp [hjoin]
            · show st.pagesProcessed + 1 ≤ effectiveMaxPages cfg.pagination
              omega
            · simp [List.getLast?_concat]
            · intro m hm
              simp only [hwarn0] at hm
              exact absurd hm (by simp)
          refine ih _ ?_ res hres
          split
          · split
            · split
              · exact key _ _
              · exact key _ _
            · exact key _ _
          · exact key _ _
        · rw [if_neg hok] at hres
          have key2 : ∀ (rl : Bool) (dl : List Nat) (rc : Nat) (hmp : Bool)
              (wa : Option Nat),
              (∀ m, wa = some m → st.pagesProcessed = m ∧ hmp = false ∧ 1 ≤ m) →
              StateInv cfg
              { retryCount := rc, rateLimitHit := rl,
                allData := st.allData, pagesProcessed := st.pagesProcessed,
                finalStatusCode := status,
                totalResponseSize := st.totalResponseSize,
                currentUrl := st.currentUrl, hasMorePages := hmp,
                fetchCount := st.fetchCount + 1,
                received := st.received ++ [status], delays := dl,
                pageRecords := st.pageRecords, warnedAfter := wa } := by
            intro rl dl rc hmp wa hw
            exact ⟨hlen, hjoin, hle, by simp [List.getLast?_concat], hw⟩
          by_cases h429 : status = 429
          · rw [if_pos h429] at hres
            split at hres
            · refine ih _ ?_ res hres
              refine key2 true (st.delays ++ [2000]) (st.retryCount + 1) st.hasMorePages
                st.warnedAfter ?_
              intro m hm
              rw [hwarn0] at hm
              exact absurd hm (by simp)
            · split at hres
              · rename_i hlt h0
                rw [Option.some.injEq] at hres
                subst hres
                have hInv2 := key2 true (st.delays ++ [2000]) (st.retryCount + 1)
                  st.hasMorePages st.warnedAfter
                  (fun m hm => absurd (hwarn0 ▸ hm) (by simp))
                exact ⟨hInv2, h0, allData_nil_of_inv hInv2 h0⟩
              · rename_i hlt h0
                refine ih _ ?_ res hres
                refine key2 true (st.delays ++ [2000]) (st.retryCount + 1) false
                  (some st.pagesProcessed) ?_
                intro m hm
                simp only [Option.some.injEq] at hm
                refine ⟨hm ▸ rfl, rfl, ?_⟩
                omega
          · rw [if_neg h429] at hres
            split at hres
            · rename_i h0
              rw [Option.some.injEq] at hres
              subst hres
              have hInv2 := key2 st.rateLimitHit st.delays st.retryCount
                st.hasMorePages st.warnedAfter
                (fun m hm => absurd (hwarn0 ▸ hm) (by simp))
              exact ⟨hInv2, h0, allData_nil_of_inv hInv2 h0⟩
            · rename_i h0
              refine ih _ ?_ res hres
              refine key2 st.rateLimitHit st.delays st.retryCount false
                (some st.pagesProcessed) ?_
              intro m hm
              simp only [Option.some.injEq] at hm
              refine ⟨hm ▸ rfl, rfl, ?_⟩
              omega

set_option maxRecDepth 10000

theorem one_le_effectiveMaxPages (p : Pagination) : 1 ≤ effectiveMaxPages p := by
  cases hm : p.maxPages with
  | none => simp [effectiveMaxPages, hm]
  | some n => cases n <;> simp [effectiveMaxPages, hm]

theorem initState_inv (cfg : Config) (url : Url) : StateInv cfg (initState url) := by
  refine ⟨rfl, rfl, Nat.zero_le _, rfl, ?_⟩
  intro m hm
  exact absurd hm (by simp [initState])

/-! ## Concrete fixtures used by the claims -/

/-- A demo endpoint URL without query parameters. -/
def urlDemo : Url := { base := "https://api.example.com/items", params := [] }

/-- Minimal configuration: pagination disabled, text decoding. -/
def cfgPlain : Config :=
  { pagination := { enabled := false }, requestHeaders := [], parse := JVal.str }

/-- Three consecutive rate-limited responses. -/
def env429 : List FetchOutcome :=
  [FetchOutcome.response 429 "" none, FetchOutcome.response 429 "" none,
   FetchOutcome.response 429 "" none]

/-- Retry counter and rate-limit flag of a failed run, when it failed. -/
def failureInfo : Option (Except LoopState LoopState) → Option (Nat × Bool)
  | some (Except.error fs) => some (fs.retryCount, fs.rateLimitHit)
  | _ => none

/-- Pages fetched by a successful run. -/
def pagesFetchedOf : Option (Except LoopState LoopState) → Option Nat
  | some (Except.ok st) => some st.pagesProcessed
  | _ => none

/-- Number of `fetch` calls a decided run issued. -/
def fetchCountOf : Option (Except LoopState LoopState) → Option Nat
  | some (Except.ok st) => some st.fetchCount
  | some (Except.error fs) => some fs.fetchCount
  | none => none

/-- Whether a POST outcome is a 400 configuration error. -/
def isConfigErrorOutcome : PostOutcome → Bool
  | PostOutcome.configError _ _ => true
  | _ => false

/-! ## C1 — three consecutive 429s on page 1 -/

/-- C1, counterexample: after three consecutive 429 responses on page 1
the run fails with the internal counter at `retryCount = 3`, not `2` as
the claim states (the counter is incremented before the `< 3` retry
check, so it counts attempts, not additional retries). -/
theorem c1_counterexample :
    failureInfo (performApiExtraction cfgPlain urlDemo env429) = some (3, true) ∧
    failureInfo (performApiExtraction cfgPlain urlDemo env429) ≠ some (2, true) := by
  have h : failureInfo (performApiExtraction cfgPlain urlDemo env429) = some (3, true) := by
    rfl
  exact ⟨h, by rw [h]; simp⟩

/-- C1 (amended): for every configuration and URL, a run whose first
three fetch outcomes are 429 responses fails as a first-page failure:
`rateLimited = true`, a fixed 2000 ms delay was requested after each of
the three 429s, the same URL was fetched all three times (3 attempts,
2 retries after the first), no page succeeded, and the counter reads
`retryCount = 3` (not 2) at exhaustion. -/
theorem c1_rate_limit_exhaustion (cfg : Config) (url : Url) (b1 b2 b3 : String)
    (l1 l2 l3 : Option Url) (rest : List FetchOutcome) :
    performApiExtraction cfg url
      (FetchOutcome.response 429 b1 l1 :: FetchOutcome.response 429 b2 l2 ::
        FetchOutcome.response 429 b3 l3 :: rest) =
      some (Except.error
        { retryCount := 3, rateLimitHit := true, allData := [], pagesProcessed := 0,
          finalStatusCode := 429, totalResponseSize := 0, currentUrl := url,
          hasMorePages := true, fetchCount := 3, received := [429, 429, 429],
          delays := [2000, 2000, 2000], pageRecords := [], warnedAfter := none }) := by
  have hpos : 0 < effectiveMaxPages cfg.pagination := one_le_effectiveMaxPages _
  simp [performApiExtraction, extractLoop, initState, hpos]

/-! ## C2 — first-page vs subsequent-page failure semantics -/

/-- C2: for every extraction, a failed run (page 1 failed: network
error, timeout, or non-2xx after retry exhaustion) carries zero fetched
pages and no partial data; and a successful run that recovered a page
failure (recorded by the `console.warn` instrumentation `warnedAfter`,
the warning signal) at page `k = m + 1 > 1` reports `pagesFetched = m`
and returns exactly the aggregated records of the `m` successful pages
1..k-1. -/
theorem c2_page_failure_semantics (cfg : Config) (url : Url) (env : List FetchOutcome) :
    (∀ fs, performApiExtraction cfg url env = some (Except.error fs) →
        fs.pagesProcessed = 0 ∧ fs.allData = []) ∧
    (∀ st m, performApiExtraction cfg url env = some (Except.ok st) →
        st.warnedAfter = some m →
        st.pagesProcessed = m ∧ st.pageRecords.length = m ∧
        st.allData = st.pageRecords.flatten ∧ 1 ≤ m) := by
  constructor
  · intro fs hrun
    have h := extractLoop_post cfg env (initState url) (initState_inv cfg url) _ hrun
    have h2 : StateInv cfg fs ∧ fs.pagesProcessed = 0 ∧ fs.allData = [] := h
    exact ⟨h2.2.1, h2.2.2⟩
  · intro st m hrun hw
    have h := extractLoop_post cfg env (initState url) (initState_inv cfg url) _ hrun
    have h2 : StateInv cfg st := h
    obtain ⟨hlen, hjoin, _, _, hwarn⟩ := h2
    obtain ⟨hp, _, hm1⟩ := hwarn m hw
    refine ⟨hp, ?_, hjoin, hm1⟩
    omega

/-- Offset-paginated request URL for the two-page runs. -/
def urlOff : Url :=
  { base := "https://api.example.com/items", params := [("offset", "0"), ("limit", "10")] }

/-- The second-page URL computed by the offset strategy. -/
def urlOff2 : Url :=
  { base := "https://api.example.com/items", params := [("offset", "10"), ("limit", "10")] }

/-- Offset pagination, up to 5 pages, text decoding. -/
def cfgOff : Config :=
  { pagination := { enabled := true, ptype := some PagType.offset, maxPages := some 5 }
    requestHeaders := []
    parse := JVal.str }

/-- Page 1 succeeds, page 2 answers 500. -/
def envC2 : List FetchOutcome :=
  [FetchOutcome.response 200 "pageone" none, FetchOutcome.response 500 "err" none]

/-- The final loop state of that run: success with the page-1 records, a
recovered page-2 failure, and the 500 as last received status. -/
def stC2 : LoopState :=
  { retryCount := 0, rateLimitHit := false, allData := [JVal.str "pageone"],
    pagesProcessed := 1, finalStatusCode := 500, totalResponseSize := 7,
    currentUrl := urlOff2, hasMorePages := false, fetchCount := 2,
    received := [200, 500], delays := [], pageRecords := [[JVal.str "pageone"]],
    warnedAfter := some 1 }

theorem c2_page_failure_semantics_witness :
    stC2.pagesProcessed = 1 ∧ stC2.pageRecords.length = 1 ∧
    stC2.allData = stC2.pageRecords.flatten ∧ 1 ≤ 1 :=
  (c2_page_failure_semantics cfgOff urlOff envC2).2 stC2 1 (by rfl) (by rfl)

/-! ## C3 — no credential validation before the network call -/

/-- The api-key mode with no credentials at all. -/
def authMissing : Authentication := { typ := AuthType.apiKey, credentials := none }

/-- A request selecting api-key authentication without a key. -/
def reqC3 : ApiRequest := { url := "https://example.com", authentication := authMissing }

/-- One successful fetch outcome. -/
def envC3 : List FetchOutcome := [FetchOutcome.response 200 "x" none]

/-- A JSON platform parser that accepts everything as `{}` (the body is
irrelevant to the control flow under test). -/
def jpDemo : String → Option JVal := fun _ => some (JVal.obj [])

/-- An XML platform parser that always fails (not reached here). -/
def xpDemo : String → Option XmlElem := fun _ => none

/-- The configuration `handlePost` builds for `reqC3`. -/
def cfgC3 : Config :=
  { pagination := { enabled := false }
    requestHeaders := []
    parse := parseApiResponse jpDemo xpDemo RespFormat.json none }

/-- C3, counterexample: with api-key authentication selected and the
required key missing, the handler returns no configuration error — the
auth header is silently omitted and the network call is issued (one
fetch consumed). -/
theorem c3_counterexample :
    missingRequired authMissing = true ∧
    buildAuthHeaders authMissing [] = [] ∧
    isConfigErrorOutcome (handlePost jpDemo xpDemo reqC3 envC3) = false ∧
    fetchCountOf (performApiExtraction cfgC3 { base := "https://example.com", params := [] }
      envC3) = some 1 := by
  exact ⟨rfl, rfl, rfl, rfl⟩

/-- C3 (amended): the route performs no credential validation.  For any
authentication whose required field for the selected mode is missing,
the authenticator leaves the headers unchanged (no error), and the POST
handler never returns a configuration error for it — the request
proceeds to the network stage; only URL presence, URL parseability and
the http/https scheme are checked before the network call. -/
theorem c3_missing_credentials_no_error (auth : Authentication)
    (hs : List (String × String)) (hmiss : missingRequired auth = true) :
    buildAuthHeaders auth hs = hs ∧
    (∀ (jsonParse : String → Option JVal) (xmlParse : String → Option XmlElem)
        (env : List FetchOutcome) (msg : String) (code : Nat),
      handlePost jsonParse xmlParse
          { url := "https://example.com", authentication := auth } env ≠
        PostOutcome.configError msg code) := by
  constructor
  · cases hty : auth.typ <;> simp_all [missingRequired, buildAuthHeaders]
    intro h1 h2
    rcases hmiss with h | h <;> simp_all
  · intro jsonParse xmlParse env msg code
    have h1 : ¬ (jsTrimStr "https://example.com" = "") := by decide
    have h2 : urlParse "https://example.com" =
        some { base := "https://example.com", params := [] } := by rfl
    have h3 : urlProtocol "https://example.com" = some "https:" := by rfl
    have h4 : ¬ ("https:" ≠ "http:" ∧ "https:" ≠ "https:") := by decide
    simp only [handlePost, h2, h3]
    rw [if_neg h1, if_neg h4]
    cases hrun : performApiExtraction
        { pagination := ({ url := "https://example.com", authentication := auth } : ApiRequest).pagination,
          requestHeaders := addContentType "GET" none (buildAuthHeaders auth []),
          parse := parseApiResponse jsonParse xmlParse RespFormat.json none }
        { base := "https://example.com", params := [] } env with
    | none => simp [hrun]
    | some r => cases r <;> simp [hrun]

theorem c3_missing_credentials_no_error_witness :
    buildAuthHeaders authMissing [("Accept", "application/json")] =
      [("Accept", "application/json")] ∧
    (∀ (jsonParse : String → Option JVal) (xmlParse : String → Option XmlElem)
        (env : List FetchOutcome) (msg : String) (code : Nat),
      handlePost jsonParse xmlParse
          { url := "https://example.com", authentication := authMissing } env ≠
        PostOutcome.configError msg code) :=
  c3_missing_credentials_no_error authMissing [("Accept", "application/json")] (by rfl)

/-! ## C4 — sample-record cap for small datasets -/

/-- Six scalar records (a dataset with `recordCount ≤ 20`). -/
def recs6 : List JVal :=
  [JVal.str "r1", JVal.str "r2", JVal.str "r3", JVal.str "r4", JVal.str "r5", JVal.str "r6"]

/-- C4, counterexample: for the six-record dataset (recordCount = 6 ≤ 20)
the formatter shows `min(6, 5) = 5` records, not `min(6, 10) = 6` as the
claim states: the rendered text contains a `Record 5:` block but no
`Record 6:` block, and announces `Showing 5 of 6`. -/
theorem c4_counterexample :
    recs6.length = 6 ∧
    maxRecordsToShow recs6.length ≠ min recs6.length 10 ∧
    containsSub (formatExtractedData recs6 RespFormat.text) "Record 5:" = true ∧
    containsSub (formatExtractedData recs6 RespFormat.text) "Record 6:" = false ∧
    containsSub (formatExtractedData recs6 RespFormat.text) "Showing 5 of 6" = true := by
  exact ⟨rfl, by decide, rfl, rfl, rfl⟩

/-- C4 (amended): for every non-empty dataset with `recordCount ≤ 20`
the formatter renders up to 5 sample records — exactly
`min(recordCount, 5)` records are selected for display (the 10-record
cap applies only to datasets larger than 20). -/
theorem c4_sample_cap (data : List JVal) (hne : data ≠ []) (hle : data.length ≤ 20) :
    maxRecordsToShow data.length = min data.length 5 ∧
    (sampleRecords data).length = min data.length 5 := by
  have h1 : maxRecordsToShow data.length = min data.length 5 := by
    unfold maxRecordsToShow
    rw [if_neg (by omega)]
  refine ⟨h1, ?_⟩
  simp only [sampleRecords, List.length_take, h1]
  omega

theorem c4_sample_cap_witness :
    maxRecordsToShow recs6.length = min recs6.length 5 ∧
    (sampleRecords recs6).length = min recs6.length 5 :=
  c4_sample_cap recs6 (by simp [recs6]) (by decide)

/-! ## C5 — XML decoding of repeated sibling tags -/

/-- The parsed element tree of `<root><item>1</item><item>2</item></root>`. -/
def xmlC5 : XmlElem :=
  XmlElem.mk "root" []
    (XmlChildren.cons (XmlElem.mk "item" [] XmlChildren.nil "1")
      (XmlChildren.cons (XmlElem.mk "item" [] XmlChildren.nil "2") XmlChildren.nil)) ""

/-- C5: decoding `<root><item>1</item><item>2</item></root>` yields a
single record in which `item` maps to the ordered two-element sequence
of the two leaves in document order, each leaf text held under the
reserved `#text` key (`["1", "2"]` as `#text` values); the same holds
through `parseXmlResponse` with no data mapping. -/
theorem c5_xml_decode :
    xmlToJson xmlC5 =
      JVal.obj [("item", JVal.arr
        [JVal.obj [("#text", JVal.str "1")], JVal.obj [("#text", JVal.str "2")]])] ∧
    parseXmlResponse xmlC5 none =
      JVal.obj [("item", JVal.arr
        [JVal.obj [("#text", JVal.str "1")], JVal.obj [("#text", JVal.str "2")]])] :=
  ⟨rfl, rfl⟩

/-! ## C8 — page cap -/

/-- Pagination with an explicit `maxPages = 0`. -/
def cfgMax0 : Config :=
  { pagination := { enabled := false, maxPages := some 0 }
    requestHeaders := [], parse := JVal.str }

/-- C8, counterexample: with `pagination.maxPages = 0` set, the run
still fetches one page (`maxPages || 10` replaces the falsy `0` by the
default 10), so `pagesFetched ≤ pagination.maxPages` fails: `1 ≤ 0` is
false. -/
theorem c8_counterexample :
    cfgMax0.pagination.maxPages = some 0 ∧
    pagesFetchedOf (performApiExtraction cfgMax0 urlDemo
      [FetchOutcome.response 200 "hello" none]) = some 1 ∧
    ¬ (1 ≤ 0) := by
  exact ⟨rfl, rfl, by decide⟩

/-- C8 (amended): every successful run fetches at most the effective
page cap — `pagination.maxPages` when it is a positive integer, and the
default 10 when it is unset or 0 (JS `maxPages || 10` treats 0 as
falsy): `pagesFetched ≤ effectiveMaxPages`. -/
theorem c8_pages_bound (cfg : Config) (url : Url) (env : List FetchOutcome)
    (st : LoopState) (format : RespFormat) (authType : AuthType)
    (hrun : performApiExtraction cfg url env = some (Except.ok st)) :
    (mkResponse format authType st).pagesProcessed ≤ effectiveMaxPages cfg.pagination := by
  have h : StateInv cfg st :=
    extractLoop_post cfg env (initState url) (initState_inv cfg url) _ hrun
  exact h.2.2.1

/-- Final state of the one-page run used by the C8 witness. -/
def stMax0 : LoopState :=
  { retryCount := 0, rateLimitHit := false, allData := [JVal.str "hello"],
    pagesProcessed := 1, finalStatusCode := 200, totalResponseSize := 5,
    currentUrl := urlDemo, hasMorePages := false, fetchCount := 1,
    received := [200], delays := [], pageRecords := [[JVal.str "hello"]],
    warnedAfter := none }

theorem c8_pages_bound_witness :
    (mkResponse RespFormat.text AuthType.noAuth stMax0).pagesProcessed ≤
      effectiveMaxPages cfgMax0.pagination :=
  c8_pages_bound cfgMax0 urlDemo [FetchOutcome.response 200 "hello" none] stMax0
    RespFormat.text AuthType.noAuth (by rfl)

/-! ## C9 — statusCode is the last received response status -/

/-- C9: the `statusCode` of a successfully returned result is the status
of the last HTTP response received during the run (200 when none was) —
including the response of a failed page `k > 1`, so a successful partial
result may report a non-2xx status. -/
theorem c9_status_last_response (cfg : Config) (url : Url) (env : List FetchOutcome)
    (st : LoopState) (format : RespFormat) (authType : AuthType)
    (hrun : performApiExtraction cfg url env = some (Except.ok st)) :
    (mkResponse format authType st).statusCode = st.received.getLast?.getD 200 := by
  have h : StateInv cfg st :=
    extractLoop_post cfg env (initState url) (initState_inv cfg url) _ hrun
  exact h.2.2.2.1

theorem c9_status_last_response_witness :
    (mkResponse RespFormat.text AuthType.noAuth stC2).statusCode =
      stC2.received.getLast?.getD 200 ∧
    (mkResponse RespFormat.text AuthType.noAuth stC2).statusCode = 500 ∧
    (mkResponse RespFormat.text AuthType.noAuth stC2).recordCount = 1 :=
  ⟨c9_status_last_response cfgOff urlOff envC2 stC2 RespFormat.text AuthType.noAuth (by rfl),
    by rfl, by rfl⟩

/-! ## C6 — CSV decoding -/

theorem jsObjSet_of_lookup_none (acc : List (String × JVal)) (k : String) (v : JVal)
    (h : jvalLookup acc k = none) : jsObjSet acc k v = acc ++ [(k, v)] := by
  induction acc with
  | nil => rfl
  | cons p rest ih =>
    obtain ⟨a, b⟩ := p
    simp only [jvalLookup] at h
    by_cases ha : a = k
    · rw [if_pos ha] at h
      exact absurd h (by simp)
    · rw [if_neg ha] at h
      simp only [jsObjSet, ha, if_false]
      rw [ih h]
      simp

theorem jvalLookup_append_of_none (a b : List (String × JVal)) (k : String)
    (h : jvalLookup a k = none) : jvalLookup (a ++ b) k = jvalLookup b k := by
  induction a with
  | nil => rfl
  | cons p rest ih =>
    obtain ⟨x, y⟩ := p
    simp only [jvalLookup] at h
    by_cases hx : x = k
    · rw [if_pos hx] at h
      exact absurd h (by simp)
    · rw [if_neg hx] at h
      simp only [List.cons_append, jvalLookup, hx, if_false]
      exact ih h

theorem buildRow_foldl (values : List String) :
    ∀ (headers : List String) (k0 : Nat) (acc : List (String × JVal)),
      headers.Nodup → (∀ h ∈ headers, jvalLookup acc h = none) →
      (List.enumFrom k0 headers).foldl
          (fun row p => jsObjSet row p.2 (JVal.str (values.getD p.1 ""))) acc =
        acc ++ (List.enumFrom k0 headers).map
          (fun p => (p.2, JVal.str (values.getD p.1 ""))) := by
  intro headers
  induction headers with
  | nil => intro k0 acc _ _; simp
  | cons h hs ih =>
    intro k0 acc hnd hnone
    simp only [List.enumFrom, List.foldl_cons, List.map_cons]
    rw [jsObjSet_of_lookup_none acc h _ (hnone h (List.mem_cons_self h hs))]
    rw [ih (k0 + 1) _ (List.nodup_cons.mp hnd).2 ?_]
    · simp
    · intro h' hh'
      rw [jvalLookup_append_of_none _ _ _ (hnone h' (List.mem_cons_of_mem h hh'))]
      simp only [jvalLookup]
      rw [if_neg (fun he : h = h' => (List.nodup_cons.mp hnd).1 (he ▸ hh'))]

theorem lookup_map_enumFrom (values : List String) :
    ∀ (headers : List String) (k0 j : Nat) (hj : j < headers.length),
      headers.Nodup →
      jvalLookup ((List.enumFrom k0 headers).map
          (fun p => (p.2, JVal.str (values.getD p.1 "")))) (headers.get ⟨j, hj⟩) =
        some (JVal.str (values.getD (k0 + j) "")) := by
  intro headers
  induction headers with
  | nil => intro k0 j hj; simp at hj
  | cons h hs ih =>
    intro k0 j hj hnd
    cases j with
    | zero =>
      simp [List.enumFrom, jvalLookup]
    | succ j =>
      have hj' : j < hs.length := by simpa using hj
      have hmem : (h :: hs).get ⟨j + 1, hj⟩ ∈ hs := List.get_mem hs j hj'
      simp only [List.enumFrom, List.map_cons, jvalLookup]
      rw [if_neg (fun he : h = (h :: hs).get ⟨j + 1, hj⟩ =>
        (List.nodup_cons.mp hnd).1 (he ▸ hmem))]
      have heq : k0 + (j + 1) = (k0 + 1) + j := by omega
      rw [heq]
      exact ih (k0 + 1) j hj' (List.nodup_cons.mp hnd).2

/-- C6: decoding the CSV body `"name,age\nAlice,30\nBob,25"` yields
exactly the records `{name: "Alice", age: "30"}` and
`{name: "Bob", age: "25"}` in that order; and in general the first line
is the header row and every row shorter than the header maps each
missing trailing header (with distinct header names) to the empty
string. -/
theorem c6_csv_decode :
    parseCsvResponse "name,age\nAlice,30\nBob,25" =
      [JVal.obj [("name", JVal.str "Alice"), ("age", JVal.str "30")],
       JVal.obj [("name", JVal.str "Bob"), ("age", JVal.str "25")]] ∧
    (∀ (headers values : List String) (j : Nat) (hj : j < headers.length),
      headers.Nodup → values.length ≤ j →
      jvalLookup (buildRow headers values) (headers.get ⟨j, hj⟩) = some (JVal.str "")) := by
  constructor
  · rfl
  · intro headers values j hj hnd hlen
    have h1 : buildRow headers values =
        (List.enumFrom 0 headers).map (fun p => (p.2, JVal.str (values.getD p.1 ""))) := by
      have h2 := buildRow_foldl values headers 0 [] hnd (fun h _ => rfl)
      simpa [buildRow, List.enum] using h2
    rw [h1, lookup_map_enumFrom values headers 0 j hj hnd]
    rw [Nat.zero_add, List.getD_eq_default values "" hlen]

theorem c6_csv_decode_witness :
    jvalLookup (buildRow ["name", "age"] ["onlyone"]) "age" = some (JVal.str "") :=
  (c6_csv_decode).2 ["name", "age"] ["onlyone"] 1 (by decide) (by decide) (by decide)



/-- A decoded cell value: a string containing no comma and no double
quote. -/
def cleanVal (v : JVal) : Prop :=
  ∃ s, v = JVal.str s ∧ ',' ∉ s.toList ∧ '"' ∉ s.toList

theorem mem_of_mem_jsTrimList (cs : List Char) (x : Char) (h : x ∈ jsTrimList cs) :
    x ∈ cs := by
  simp only [jsTrimList, List.mem_reverse] at h
  have h1 := (List.dropWhile_sublist (l := (cs.dropWhile isJsWs).reverse) isJsWs).mem h
  rw [List.mem_reverse] at h1
  exact (List.dropWhile_sublist isJsWs).mem h1

theorem cleanCell_spec (cs : List Char) (hc : ',' ∉ cs) :
    ',' ∉ (cleanCell cs).toList ∧ '"' ∉ (cleanCell cs).toList := by
  have htl : (cleanCell cs).toList = (jsTrimList cs).filter (fun c => c ≠ '"') := by
    simp [cleanCell, removeQuotes]
  constructor
  · rw [htl]
    intro hmem
    exact hc (mem_of_mem_jsTrimList cs ',' (List.mem_of_mem_filter hmem))
  · rw [htl]
    intro hmem
    have := List.of_mem_filter hmem
    simp at this

theorem getD_cleanVal (values : List String)
    (hall : ∀ s ∈ values, ',' ∉ s.toList ∧ '"' ∉ s.toList) (i : Nat) :
    cleanVal (JVal.str (values.getD i "")) := by
  by_cases h : i < values.length
  · refine ⟨values.getD i "", rfl, ?_⟩
    have hmem : values.getD i "" ∈ values := by
      rw [List.getD_eq_getElem values "" h]
      exact List.getElem_mem h
    exact hall _ hmem
  · rw [List.getD_eq_default values "" (by omega)]
    exact ⟨"", rfl, by simp, by simp⟩

theorem mem_jsObjSet (acc : List (String × JVal)) (k : String) (v : JVal) :
    ∀ kv ∈ jsObjSet acc k v, kv ∈ acc ∨ kv = (k, v) := by
  induction acc with
  | nil => intro kv hkv; simp only [jsObjSet, List.mem_singleton] at hkv; exact Or.inr hkv
  | cons p rest ih =>
    obtain ⟨a, b⟩ := p
    intro kv hkv
    simp only [jsObjSet] at hkv
    by_cases ha : a = k
    · rw [if_pos ha] at hkv
      rcases List.mem_cons.mp hkv with h | h
      · exact Or.inr h
      · exact Or.inl (List.mem_cons_of_mem _ h)
    · rw [if_neg ha] at hkv
      rcases List.mem_cons.mp hkv with h | h
      · exact Or.inl (h ▸ List.mem_cons_self _ _)
      · rcases ih kv h with h2 | h2
        · exact Or.inl (List.mem_cons_of_mem _ h2)
        · exact Or.inr h2

theorem foldl_build_cleanVal (values : List String)
    (hall : ∀ i, cleanVal (JVal.str (values.getD i ""))) :
    ∀ (ps : List (Nat × String)) (acc : List (String × JVal)),
      (∀ kv ∈ acc, cleanVal kv.2) →
      ∀ kv ∈ ps.foldl (fun row p => jsObjSet row p.2 (JVal.str (values.getD p.1 ""))) acc,
        cleanVal kv.2 := by
  intro ps
  induction ps with
  | nil => intro acc hacc kv hkv; exact hacc kv hkv
  | cons p rest ih =>
    intro acc hacc kv hkv
    refine ih _ ?_ kv hkv
    intro kv2 hkv2
    rcases mem_jsObjSet acc p.2 (JVal.str (values.getD p.1 "")) kv2 hkv2 with h | h
    · exact hacc kv2 h
    · rw [h]
      exact hall p.1

/-- C10: every cell value the CSV decoder produces contains no comma
and no double quote — lines are split at every comma and all double
quotes are deleted — and concretely the double-quoted cell `"x,y"` in
`a,b\n"x,y",z` is split into the two separate cells `x` and `y` rather
than kept as one. -/
theorem c10_csv_cells_clean :
    (∀ (csvText : String) (row : List (String × JVal)) (k : String) (v : JVal),
      row ∈ csvRows csvText → (k, v) ∈ row →
      ∃ s, v = JVal.str s ∧ ',' ∉ s.toList ∧ '"' ∉ s.toList) ∧
    csvRows "a,b\n\"x,y\",z" = [[("a", JVal.str "x"), ("b", JVal.str "y")]] := by
  constructor
  · intro csvText row k v hrow hkv
    cases hsplit : splitChar '\n' (jsTrimList csvText.toList) with
    | nil => exact absurd hsplit (splitChar_ne_nil _ _)
    | cons headerLine restLines =>
      simp only [csvRows, hsplit] at hrow
      obtain ⟨line, hlineMem, hrowEq⟩ := List.mem_map.mp hrow
      have hvals : ∀ s ∈ (splitChar ',' line).map cleanCell,
          ',' ∉ s.toList ∧ '"' ∉ s.toList := by
        intro s hs
        obtain ⟨cs, hcs, hcseq⟩ := List.mem_map.mp hs
        rw [← hcseq]
        exact cleanCell_spec cs (mem_splitChar_not_sep ',' line cs hcs)
      have hgetD := getD_cleanVal ((splitChar ',' line).map cleanCell) hvals
      have := foldl_build_cleanVal ((splitChar ',' line).map cleanCell) hgetD
        (List.enum ((splitChar ',' headerLine).map cleanCell)) []
        (by intro kv hkv; simp at hkv) (k, v) (by rw [← hrowEq] at hkv; exact hkv)
      exact this
  · rfl

/-! ## C7 — offset pagination progression -/

/-- Iterating the pagination controller from the URL of a page to the next,
as the fetch loop does once per fetched page (the offset strategy reads
only the current URL, so link header and body are irrelevant). -/
def offsetIter (pg : Pagination) (u : Url) : Nat → Option Url
  | 0 => some u
  | n + 1 =>
    match offsetIter pg u n with
    | some u' => getNextPageUrl none JVal.null pg u' n
    | none => none

theorem natToString_ne_blank (n : Nat) : natToString n ≠ "" := by
  intro h
  exact natToString_ne_empty n (by rw [h]; rfl)

theorem getNextPageUrl_offset_step (linkNext : Option Url) (data : JVal)
    (pg : Pagination) (u : Url) (cp : Nat) (v L : Nat)
    (hen : pg.enabled = true) (hty : pg.ptype = some PagType.offset)
    (hoff : getParam u.params (jsOrS pg.pageParam "offset") = some (natToString v))
    (hlim : getParam u.params (jsOrS pg.limitParam "limit") = some (natToString L) ∨
      (getParam u.params (jsOrS pg.limitParam "limit") = none ∧ L = 10)) :
    getNextPageUrl linkNext data pg u cp =
      some { base := u.base,
             params := setParam u.params (jsOrS pg.pageParam "offset")
               (natToString (v + L)) } := by
  have hparse : jsParseInt (jsOrS (getParam u.params (jsOrS pg.pageParam "offset")) "0") =
      some v := by
    rw [hoff]
    simp only [jsOrS]
    rw [if_neg (natToString_ne_blank v)]
    exact jsParseInt_natToString v
  have hparseL : jsParseInt (jsOrS (getParam u.params (jsOrS pg.limitParam "limit")) "10") =
      some L := by
    rcases hlim with h | ⟨h, hL⟩
    · rw [h]
      simp only [jsOrS]
      rw [if_neg (natToString_ne_blank L)]
      exact jsParseInt_natToString L
    · rw [h, hL]
      rfl
  simp only [getNextPageUrl, hen, hty, Bool.not_true, if_false, hparse, hparseL]
  rfl

theorem c7_offset_progression (pg : Pagination) (u0 : Url) (L : Nat)
    (hen : pg.enabled = true) (hty : pg.ptype = some PagType.offset)
    (hpl : jsOrS pg.pageParam "offset" ≠ jsOrS pg.limitParam "limit")
    (hoff : getParam u0.params (jsOrS pg.pageParam "offset") = some (natToString 0))
    (hlim : getParam u0.params (jsOrS pg.limitParam "limit") = some (natToString L) ∨
      (getParam u0.params (jsOrS pg.limitParam "limit") = none ∧ L = 10)) :
    ∀ n, ∃ un, offsetIter pg u0 n = some un ∧
      getParam un.params (jsOrS pg.pageParam "offset") = some (natToString (n * L)) ∧
      getParam un.params (jsOrS pg.limitParam "limit") =
        getParam u0.params (jsOrS pg.limitParam "limit") ∧
      un.base = u0.base := by
  intro n
  induction n with
  | zero =>
    refine ⟨u0, rfl, ?_, rfl, rfl⟩
    simpa using hoff
  | succ n ih =>
    obtain ⟨un, hiter, hoffn, hlimn, hbase⟩ := ih
    have hlim' : getParam un.params (jsOrS pg.limitParam "limit") = some (natToString L) ∨
        (getParam un.params (jsOrS pg.limitParam "limit") = none ∧ L = 10) := by
      rw [hlimn]
      exact hlim
    have hstep := getNextPageUrl_offset_step none JVal.null pg un n (n * L) L
      hen hty hoffn hlim'
    refine ⟨{ base := un.base,
              params := setParam un.params (jsOrS pg.pageParam "offset")
                (natToString (n * L + L)) }, ?_, ?_, ?_, ?_⟩
    · simp only [offsetIter, hiter, hstep]
    · rw [getParam_setParam_same]
      have heq : n * L + L = (n + 1) * L := by ring
      rw [heq]
    · rw [getParam_setParam_other _ _ _ _ (fun h => hpl h.symm), hlimn]
    · exact hbase

/-- C7 fixture: enabled offset pagination with default parameter names. -/
def pgC7 : Pagination := { enabled := true, ptype := some PagType.offset }

theorem c7_offset_progression_witness :
    ∃ u3, offsetIter pgC7 urlOff 3 = some u3 ∧
      getParam u3.params (jsOrS pgC7.pageParam "offset") = some (natToString (3 * 10)) ∧
      getParam u3.params (jsOrS pgC7.limitParam "limit") =
        getParam urlOff.params (jsOrS pgC7.limitParam "limit") ∧
      u3.base = urlOff.base :=
  c7_offset_progression pgC7 urlOff 10 rfl rfl (by decide) (by rfl) (Or.inl (by rfl)) 3

theorem c10_csv_cells_clean_witness :
    ∃ s, (JVal.str "x") = JVal.str s ∧ ',' ∉ s.toList ∧ '"' ∉ s.toList :=
  c10_csv_cells_clean.1 "a,b\n\"x,y\",z" [("a", JVal.str "x"), ("b", JVal.str "y")]
    "a" (JVal.str "x")
    (by
      have h : csvRows "a,b\n\"x,y\",z" = [[("a", JVal.str "x"), ("b", JVal.str "y")]] := rfl
      rw [h]
      exact List.mem_singleton_self _)
    (List.mem_cons_self _ _)
